import Mathlib

/-!
HomePage (`src/home/index.js`).

A shallow embedding of the `HomePage` React component: the render tree it
returns, the mount effect on `document.title`, and the pairwise chunking of the
post list that feeds the grid.
-/

namespace HomePage

/-! ## Data model -/

/-- A post record, the shape named by `propTypes` (lines 23-27): three strings. -/
structure Post where
  url : String
  title : String
  author : String
  deriving DecidableEq, Repr

/-- The module-level bindings `render` and `componentDidMount` read: the three
values imported from `./index.md` (line 18), the class name `s.content` from
`./styles.css` (line 16), and the value `Posts.list()` evaluates to (line 45),
where `none` stands for `null`/`undefined`. -/
structure Env where
  title : String
  banner : String
  html : String
  s_content : String
  Posts_list : Option (List Post)
  deriving Repr

/-- The props of one `HomePage` instance (`propTypes`, lines 22-28). -/
structure Props where
  articles : List Post
  deriving DecidableEq, Repr

/-! ## Chunking -/

/-- Modelled from the spec: part of `chunk`, which is not under `src/`. The
slice of `array` from index `start` up to, not including, `stop`, clamped to
the array: one "ordered sub-sequence" of the Glossary's chunking. -/
def baseSlice {α : Type} (array : List α) (start stop : Nat) : List α :=
  (array.drop start).take (stop - start)

/-- Modelled from the spec: part of `chunk`, which is not under `src/`. The
chunking loop: while `index < length`, cut the slice `[index, index + size)`
and advance `index` by `size`. `fuel` bounds the number of iterations. -/
def chunkLoop {α : Type} (array : List α) (size : Nat) : Nat → Nat → List (List α)
  | 0, _ => []
  | fuel + 1, index =>
    if index < array.length then
      baseSlice array index (index + size) :: chunkLoop array size fuel (index + size)
    else []

/-- Modelled from the spec: `chunk` is imported from `lodash.chunk` (line 13),
which is not under `src/`. Spec, Glossary: chunking is "splitting an ordered
sequence into fixed-size (here, size-2) ordered sub-sequences, preserving
order, with a possibly shorter final group"; section 7: a missing or empty
list gives zero chunks, not an error. The model is the slicing loop: a missing
(`none`) or empty array, or a size below 1, gives no group; otherwise groups
of `size` elements are cut from the front until the array is used up (one
iteration per element at most, so `length` iterations are enough fuel). -/
def chunk {α : Type} (array : Option (List α)) (size : Nat) : List (List α) :=
  match array with
  | none => []
  | some a =>
    if a.length = 0 ∨ size < 1 then []
    else chunkLoop a size a.length 0

/-! ## Render tree -/

/-- What stands in the type position of a JSX element of `render`: one of the
imported components (lines 12-15) or a host tag. -/
inductive ElementType
  | Layout | Grid | Cell | Keynote
  | div | h4 | p | br
  deriving DecidableEq, Repr

/-- The value of a JSX attribute in `render`: a string, a number, a post
record, or an object literal whose fields are strings. -/
inductive Value
  | str (s : String)
  | num (n : Nat)
  | post (p : Post)
  | obj (fields : List (String × String))
  deriving DecidableEq, Repr

/-- A rendered element: literal text, or a type with its attributes (in source
order) and its children (in document order). -/
inductive Element
  | text (s : String)
  | el (type : ElementType) (props : List (String × Value)) (children : List Element)

/-- The attributes of an element (none for text). -/
def Element.props : Element → List (String × Value)
  | .text _ => []
  | .el _ props _ => props

/-- The children of an element (none for text). -/
def Element.children : Element → List Element
  | .text _ => []
  | .el _ _ children => children

/-- The value of the attribute called `name`, when the element has one. -/
def Element.prop? (e : Element) (name : String) : Option Value :=
  e.props.lookup name

/-- The `Keynote` element for one post (line 48). -/
def keynote (post : Post) : Element :=
  .el .Keynote [("post", .post post)] []

/-- The `Cell` element for one chunk (lines 47-49). -/
def cell (ck : List Post) : Element :=
  .el .Cell [("col", .num 6)] (ck.map keynote)

/-- The tree `HomePage.render` returns (lines 34-59). It reads the module
bindings only; `this.props` is never read. -/
def render (env : Env) (_props : Props) : Element :=
  .el .Layout
    [("className", .str env.s_content),
     ("header", .obj [("background", "url(" ++ env.banner ++ ") center / cover"),
                      ("title", env.title)])]
    [.el .div [("dangerouslySetInnerHTML", .obj [("__html", env.html)])] [],
     .el .h4 [] [.text "Keynotes"],
     .el .Grid [("className", .str "demo-grid-ruler")] ((chunk env.Posts_list 2).map cell),
     .el .p [] [.el .br [] [], .el .br [] []]]

/-- The children of the `Grid` elements among the children of `e`, in order:
for the tree of `render`, the cells of the grid. -/
def gridCells (e : Element) : List Element :=
  e.children.flatMap fun c =>
    match c with
    | .el .Grid _ cs => cs
    | _ => []

mutual
/-- The posts handed to `Keynote` elements anywhere in the tree, in document
order. -/
def Element.keynotePosts : Element → List Post
  | .text _ => []
  | .el type props children =>
    (if type = .Keynote then
      props.filterMap fun kv =>
        match kv.2 with
        | .post p => if kv.1 = "post" then some p else none
        | _ => none
     else []) ++ keynotePostsOfList children
/-- The posts handed to `Keynote` elements in a run of sibling elements. -/
def keynotePostsOfList : List Element → List Post
  | [] => []
  | c :: cs => c.keynotePosts ++ keynotePostsOfList cs
end

/-! ## Mount effect -/

/-- The global state the mount effect runs against: the `document.title` slot
and, as `rest`, everything else. -/
structure Global (γ : Type) where
  document_title : String
  rest : γ

/-- An assignment statement of a method body. The source has one kind:
`document.title = value` (line 31). -/
inductive Assignment
  | document_title (value : String)
  deriving DecidableEq, Repr

/-- Executing one assignment on the global state. -/
def Assignment.exec {γ : Type} : Assignment → Global γ → Global γ
  | .document_title value, g => { g with document_title := value }

/-- The value an assignment stores in the `document.title` slot. -/
def Assignment.value : Assignment → String
  | .document_title value => value

/-- The assignments the body of `HomePage.componentDidMount` executes, in
order (lines 30-32): the single statement `document.title = title`. -/
def componentDidMount_body (env : Env) (_props : Props) : List Assignment :=
  [.document_title env.title]

/-- The assignments the body of `HomePage.render` executes (lines 34-59): none,
the body is a single `return` of the tree. -/
def render_body (_env : Env) (_props : Props) : List Assignment :=
  []

/-- The effect of `HomePage.componentDidMount` on the global state: the
assignments of its body, executed in order. -/
def componentDidMount {γ : Type} (env : Env) (props : Props) (g : Global γ) : Global γ :=
  (componentDidMount_body env props).foldl (fun acc a => a.exec acc) g

/-- The two methods of `HomePage` the framework calls. -/
inductive Call
  | render
  | componentDidMount
  deriving DecidableEq, Repr

/-- The assignments a call of a method executes: those of the method's body. -/
def assignments (env : Env) (props : Props) : Call → List Assignment
  | .render => render_body env props
  | .componentDidMount => componentDidMount_body env props

/-- The state of one observed run of an instance: the global state, the log
of every value assigned to `document.title` so far (oldest first), and the
trees returned by `render` so far (oldest first). -/
structure Run (γ : Type) where
  global : Global γ
  titleWrites : List String
  rendered : List Element

/-- One call of a method of the instance: the assignments of the method's body
are executed in order on the global state and each is entered in the log; a
`render` call also returns its tree. -/
def step {γ : Type} (env : Env) (props : Props) (c : Call) (r : Run γ) : Run γ :=
  { global := (assignments env props c).foldl (fun acc a => a.exec acc) r.global
    titleWrites := r.titleWrites ++ (assignments env props c).map Assignment.value
    rendered :=
      match c with
      | .render => r.rendered ++ [HomePage.render env props]
      | .componentDidMount => r.rendered }

/-- A sequence of calls, run from left to right. -/
def run {γ : Type} (env : Env) (props : Props) (calls : List Call) (r : Run γ) : Run γ :=
  calls.foldl (fun acc c => step env props c acc) r

/-- The start of a run: nothing written, nothing rendered. -/
def Run.init {γ : Type} (g : Global γ) : Run γ :=
  { global := g, titleWrites := [], rendered := [] }

/-- The calls one instance receives: the initial render, then the mount, then
`k` re-renders. -/
def lifecycle (k : Nat) : List Call :=
  .render :: .componentDidMount :: List.replicate k .render

/-! ## Facts about the chunking loop -/

/-- With enough fuel, entry `i` of the loop's output is the slice starting at
`index + i * size`, and there is no entry once that start passes the end. -/
theorem chunkLoop_getElem? {α : Type} (array : List α) (size : Nat) (hs : 0 < size) :
    ∀ (fuel index i : Nat), array.length ≤ index + fuel →
      (chunkLoop array size fuel index)[i]? =
        if index + i * size < array.length then
          some (baseSlice array (index + i * size) (index + i * size + size))
        else none := by
  intro fuel
  induction fuel with
  | zero =>
    intro index i h
    have : ¬ (index + i * size < array.length) := by
      have := Nat.zero_le (i * size)
      omega
    simp [chunkLoop, this]
  | succ fuel ih =>
    intro index i h
    by_cases hlt : index < array.length
    · cases i with
      | zero => simp [chunkLoop, hlt]
      | succ j =>
        have e : index + (j + 1) * size = index + size + j * size := by ring
        simp only [chunkLoop, hlt, if_true, List.getElem?_cons_succ]
        rw [ih (index + size) j (by omega), e]
    · have : ¬ (index + i * size < array.length) := by
        have := Nat.zero_le (i * size)
        omega
      simp [chunkLoop, hlt, this]

/-- With enough fuel, the groups cut from `index` on, put back together, are
the array from `index` on. -/
theorem chunkLoop_flatten {α : Type} (array : List α) (size : Nat) (hs : 0 < size) :
    ∀ (fuel index : Nat), array.length ≤ index + fuel →
      (chunkLoop array size fuel index).flatten = array.drop index := by
  intro fuel
  induction fuel with
  | zero =>
    intro index h
    simp [chunkLoop, List.drop_eq_nil_of_le (show array.length ≤ index by omega)]
  | succ fuel ih =>
    intro index h
    by_cases hlt : index < array.length
    · simp only [chunkLoop, hlt, if_true, List.flatten_cons]
      rw [ih (index + size) (by omega), baseSlice, Nat.add_sub_cancel_left,
        ← List.drop_drop, List.take_append_drop]
    · simp [chunkLoop, hlt, List.drop_eq_nil_of_le (show array.length ≤ index by omega)]

/-- With enough fuel, cutting pairs from `index` on gives half the remaining
length, rounded up, many groups. -/
theorem chunkLoop_two_length {α : Type} (array : List α) :
    ∀ (fuel index : Nat), array.length ≤ index + fuel →
      (chunkLoop array 2 fuel index).length = (array.length - index + 1) / 2 := by
  intro fuel
  induction fuel with
  | zero =>
    intro index h
    simp [chunkLoop]
    omega
  | succ fuel ih =>
    intro index h
    by_cases hlt : index < array.length
    · simp only [chunkLoop, hlt, if_true, List.length_cons]
      rw [ih (index + 2) (by omega)]
      omega
    · simp [chunkLoop, hlt]
      omega

/-- Half of `n` rounded up, as a rational ceiling, is `(n + 1) / 2` on naturals. -/
theorem ceil_half_eq (n : Nat) : ⌈(n : ℚ) / 2⌉₊ = (n + 1) / 2 := by
  rcases Nat.even_or_odd' n with ⟨k, rfl | rfl⟩
  · have h1 : ((2 * k : ℕ) : ℚ) / 2 = (k : ℕ) := by push_cast; ring
    rw [h1, Nat.ceil_natCast]
    omega
  · have h2 : (2 * k + 1 + 1) / 2 = k + 1 := by omega
    rw [h2, Nat.ceil_eq_iff (by omega)]
    push_cast
    constructor
    · linarith
    · linarith

/-! ## Facts about `chunk`, `render` and the lifecycle -/

/-- The groups of `chunk`, put back together, are the array. -/
theorem chunk_flatten {α : Type} (S : List α) (size : Nat) (hs : 0 < size) :
    (chunk (some S) size).flatten = S := by
  unfold chunk
  by_cases h0 : S.length = 0
  · simp [h0, List.length_eq_zero.mp h0]
  · have hc : ¬ (S.length = 0 ∨ size < 1) := by omega
    simp only [hc, if_false]
    rw [chunkLoop_flatten S size hs S.length 0 (by omega), List.drop_zero]

/-- Chunking by 2 gives `(n + 1) / 2` groups. -/
theorem chunk_two_length {α : Type} (S : List α) :
    (chunk (some S) 2).length = (S.length + 1) / 2 := by
  unfold chunk
  by_cases h0 : S.length = 0
  · simp [h0]
  · have hc : ¬ (S.length = 0 ∨ 2 < 1) := by omega
    simp only [hc, if_false]
    rw [chunkLoop_two_length S S.length 0 (by omega), Nat.sub_zero]

/-- Group `i` of chunking by 2 is the slice of two starting at `2 * i`. -/
theorem chunk_two_getElem? {α : Type} (S : List α) (i : Nat) :
    (chunk (some S) 2)[i]? =
      if 2 * i < S.length then some ((S.drop (2 * i)).take 2) else none := by
  unfold chunk
  by_cases h0 : S.length = 0
  · simp [h0]
  · have hc : ¬ (S.length = 0 ∨ 2 < 1) := by omega
    simp only [hc, if_false]
    rw [chunkLoop_getElem? S 2 (by omega) S.length 0 i (by omega)]
    simp [baseSlice, Nat.mul_comm]

/-- A slice of two that starts two or more before the end is a pair. -/
theorem take_two_drop_pair {α : Type} (S : List α) (k : Nat) (h : k + 1 < S.length) :
    (S.drop k).take 2 = [S[k], S[k + 1]] := by
  rw [List.drop_eq_getElem_cons (show k < S.length by omega),
    List.drop_eq_getElem_cons h]
  rfl

/-- A slice of two that starts at the last element is that element alone. -/
theorem take_two_drop_last {α : Type} (S : List α) (k : Nat) (h : k + 1 = S.length) :
    (S.drop k).take 2 = [S.get ⟨k, by omega⟩] := by
  rw [List.drop_eq_getElem_cons (show k < S.length by omega),
    List.drop_eq_nil_of_le (show S.length ≤ k + 1 by omega)]
  rfl

/-- The posts of the keynotes of one chunk are the chunk. -/
theorem keynotePostsOfList_keynote (ck : List Post) :
    keynotePostsOfList (ck.map keynote) = ck := by
  induction ck with
  | nil => simp [keynotePostsOfList]
  | cons p t ih => simp [keynotePostsOfList, Element.keynotePosts, keynote, ih]

/-- The posts of the keynotes of a run of cells are the chunks put together. -/
theorem keynotePostsOfList_cell (L : List (List Post)) :
    keynotePostsOfList (L.map cell) = L.flatten := by
  induction L with
  | nil => simp [keynotePostsOfList]
  | cons ck t ih =>
    have hk := keynotePostsOfList_keynote ck
    simp [keynotePostsOfList, Element.keynotePosts, cell, ih, hk]

/-- The cells of the grid of `render` are the cells of the chunks. -/
theorem gridCells_render (env : Env) (props : Props) :
    gridCells (render env props) = (chunk env.Posts_list 2).map cell := by
  simp [gridCells, render, Element.children]

/-- The posts of all keynotes of `render` are the chunks put together. -/
theorem keynotePosts_render (env : Env) (props : Props) :
    (render env props).keynotePosts = (chunk env.Posts_list 2).flatten := by
  simp [render, Element.keynotePosts, keynotePostsOfList, keynotePostsOfList_cell]

/-- A call of `render` leaves the global state and the log of writes as they are. -/
theorem step_render {γ : Type} (env : Env) (props : Props) (r : Run γ) :
    (step env props .render r).global = r.global ∧
    (step env props .render r).titleWrites = r.titleWrites := by
  simp [step, assignments, render_body]

/-- A call of `componentDidMount` applies the mount effect to the global state
and enters the one assignment of its body in the log. -/
theorem step_componentDidMount {γ : Type} (env : Env) (props : Props) (r : Run γ) :
    (step env props .componentDidMount r).global = componentDidMount env props r.global ∧
    (step env props .componentDidMount r).titleWrites = r.titleWrites ++ [env.title] := by
  simp [step, assignments, componentDidMount, componentDidMount_body, Assignment.value]

/-- Calls of `render` leave the global state and the log of writes as they are. -/
theorem run_replicate_render {γ : Type} (env : Env) (props : Props) (m : Nat) :
    ∀ r : Run γ,
      (run env props (List.replicate m .render) r).global = r.global ∧
      (run env props (List.replicate m .render) r).titleWrites = r.titleWrites := by
  induction m with
  | zero => intro r; simp [run]
  | succ m ih =>
    intro r
    have h := ih (step env props .render r)
    have hs := step_render env props r
    simp only [run, List.replicate_succ, List.foldl_cons] at h ⊢
    exact ⟨h.1.trans hs.1, h.2.trans hs.2⟩

/-- The state after the initial render and the mount, run from the start. -/
theorem run_render_mount {γ : Type} (env : Env) (props : Props) (g : Global γ) :
    (step env props .componentDidMount (step env props .render (Run.init g))).global =
      componentDidMount env props g ∧
    (step env props .componentDidMount (step env props .render (Run.init g))).titleWrites =
      [env.title] := by
  have hm := step_componentDidMount env props (step env props .render (Run.init g))
  have hr := step_render env props (Run.init g)
  rw [hr.1, hr.2] at hm
  exact ⟨hm.1, by simpa [Run.init] using hm.2⟩

/-! ## The claims -/

/-- C1: for every list `S`, the groups of `chunk(S, 2)` concatenated in order
are exactly `S`: nothing is dropped, duplicated or reordered. -/
theorem chunk_concat_roundtrip {α : Type} (S : List α) :
    (chunk (some S) 2).flatten = S :=
  chunk_flatten S 2 (by decide)

/-- C2: for every list of length `n`, chunking it into groups of 2 gives
exactly `⌈n / 2⌉` groups. -/
theorem chunk_group_count {α : Type} (S : List α) :
    (chunk (some S) 2).length = ⌈(S.length : ℚ) / 2⌉₊ := by
  rw [ceil_half_eq, chunk_two_length]

/-- C3: for every list `S` of length `n` and every index `i < ⌈n / 2⌉`, group
`i` of `chunk(S, 2)` is `[S[2i], S[2i+1]]`, except that it is `[S[2i]]` when
`n` is odd and `i` is the last index; every group has one or two elements, and
a group has one element exactly when `n` is odd and the group is the last one.
Four elements give two pairs; five give two pairs and a single. -/
theorem chunk_group_contents {α : Type} (S : List α) (i : Nat)
    (h : i < ⌈(S.length : ℚ) / 2⌉₊) (a b c d e : α) :
    (¬ (S.length % 2 = 1 ∧ i + 1 = ⌈(S.length : ℚ) / 2⌉₊) →
        ∃ x y, S[2 * i]? = some x ∧ S[2 * i + 1]? = some y ∧
          (chunk (some S) 2)[i]? = some [x, y]) ∧
    (S.length % 2 = 1 ∧ i + 1 = ⌈(S.length : ℚ) / 2⌉₊ →
        ∃ x, S[2 * i]? = some x ∧ (chunk (some S) 2)[i]? = some [x]) ∧
    (∀ j g, (chunk (some S) 2)[j]? = some g →
        1 ≤ g.length ∧ g.length ≤ 2 ∧
        (g.length = 1 ↔ S.length % 2 = 1 ∧ j + 1 = ⌈(S.length : ℚ) / 2⌉₊)) ∧
    chunk (some [a, b, c, d]) 2 = [[a, b], [c, d]] ∧
    chunk (some [a, b, c, d, e]) 2 = [[a, b], [c, d], [e]] := by
  rw [ceil_half_eq] at h ⊢
  refine ⟨?_, ?_, ?_, by simp [chunk, chunkLoop, baseSlice],
    by simp [chunk, chunkLoop, baseSlice]⟩
  · intro hne
    have h1 : 2 * i + 1 < S.length := by omega
    refine ⟨S[2 * i], S[2 * i + 1], List.getElem?_eq_getElem _, List.getElem?_eq_getElem _, ?_⟩
    rw [chunk_two_getElem?, if_pos (by omega), take_two_drop_pair S (2 * i) h1]
  · intro hlast
    have h1 : 2 * i + 1 = S.length := by omega
    refine ⟨S[2 * i], List.getElem?_eq_getElem _, ?_⟩
    rw [chunk_two_getElem?, if_pos (by omega), take_two_drop_last S (2 * i) h1]
    rfl
  · intro j g hg
    rw [chunk_two_getElem?] at hg
    by_cases hj : 2 * j < S.length
    · rw [if_pos hj] at hg
      have hg2 : g = (S.drop (2 * j)).take 2 := (Option.some.inj hg).symm
      have hl : g.length = min 2 (S.length - 2 * j) := by
        rw [hg2, List.length_take, List.length_drop]
      omega
    · rw [if_neg hj] at hg
      cases hg

/-- C3, at the list `[10, 20, 30]`: index 0 is not the last index and holds
the pair `[10, 20]`; index 1 is the last index of an odd-length list and holds
`[30]` alone. -/
theorem chunk_group_contents_witness :
    (0 < ⌈(([10, 20, 30] : List Nat).length : ℚ) / 2⌉₊ ∧
      (chunk (some [10, 20, 30]) 2)[0]? = some [10, 20]) ∧
    (1 < ⌈(([10, 20, 30] : List Nat).length : ℚ) / 2⌉₊ ∧
      (chunk (some [10, 20, 30]) 2)[1]? = some [30]) := by
  have h0 : 0 < ⌈(([10, 20, 30] : List Nat).length : ℚ) / 2⌉₊ := by
    rw [ceil_half_eq]; decide
  have h1 : 1 < ⌈(([10, 20, 30] : List Nat).length : ℚ) / 2⌉₊ := by
    rw [ceil_half_eq]; decide
  refine ⟨⟨h0, ?_⟩, ⟨h1, ?_⟩⟩
  · obtain ⟨x, y, hx, hy, hg⟩ :=
      (chunk_group_contents [10, 20, 30] 0 h0 0 0 0 0 0).1
        (by rw [ceil_half_eq]; decide)
    simp at hx hy
    subst hx hy
    exact hg
  · obtain ⟨x, hx, hg⟩ :=
      (chunk_group_contents [10, 20, 30] 1 h1 0 0 0 0 0).2.1
        ⟨by decide, by rw [ceil_half_eq]; rfl⟩
    simp at hx
    subst hx
    exact hg

/-- C4: when `Posts.list()` gives a missing (`null`/`undefined`) or an empty
list, chunking it gives no group, and the tree of `render` holds a `Grid` with
no `Cell` child. -/
theorem render_empty_grid (env : Env) (props : Props)
    (h : env.Posts_list = none ∨ env.Posts_list = some []) :
    chunk env.Posts_list 2 = [] ∧
    gridCells (render env props) = [] ∧
    (render env props).children[2]? =
      some (.el .Grid [("className", .str "demo-grid-ruler")] []) := by
  have hc : chunk env.Posts_list 2 = [] := by
    rcases h with h | h <;> rw [h] <;> rfl
  refine ⟨hc, ?_, ?_⟩
  · rw [gridCells_render, hc]; rfl
  · simp [render, Element.children, hc]

/-- C4, at a missing list and at an empty list. -/
theorem render_empty_grid_witness :
    gridCells (render ⟨"Home", "banner.png", "<p>hi</p>", "content", none⟩ ⟨[]⟩) = [] ∧
    gridCells (render ⟨"Home", "banner.png", "<p>hi</p>", "content", some []⟩ ⟨[]⟩) = [] :=
  ⟨(render_empty_grid ⟨"Home", "banner.png", "<p>hi</p>", "content", none⟩ ⟨[]⟩
      (Or.inl rfl)).2.1,
   (render_empty_grid ⟨"Home", "banner.png", "<p>hi</p>", "content", some []⟩ ⟨[]⟩
      (Or.inr rfl)).2.1⟩

/-- C5, as stated, fails: with `Posts.list()` giving the post B and the
`articles` input holding the post A, the grid shows B, not A. -/
theorem render_articles_counterexample :
    (render ⟨"Home", "banner.png", "<p>hi</p>", "content", some [⟨"/b", "B", "bob"⟩]⟩
        ⟨[⟨"/a", "A", "ann"⟩]⟩).keynotePosts = [⟨"/b", "B", "bob"⟩] ∧
    (render ⟨"Home", "banner.png", "<p>hi</p>", "content", some [⟨"/b", "B", "bob"⟩]⟩
        ⟨[⟨"/a", "A", "ann"⟩]⟩).keynotePosts ≠
      (⟨[⟨"/a", "A", "ann"⟩]⟩ : Props).articles := by
  decide

/-- C5, amended: whatever list is passed as `articles`, the posts shown in the
rendered grid are exactly the posts of the list `Posts.list()` gives, in
order, and the rendered tree is the same for every `articles` value. -/
theorem render_posts_from_Posts_list (env : Env) (S articles articles' : List Post) :
    (render { env with Posts_list := some S } ⟨articles⟩).keynotePosts = S ∧
    render env ⟨articles⟩ = render env ⟨articles'⟩ := by
  refine ⟨?_, rfl⟩
  rw [keynotePosts_render]
  exact chunk_flatten S 2 (by decide)

/-- C6: after `componentDidMount` the `document.title` slot holds the compiled
`title`, everything else in the global state is as before, and the resulting
state is the same for any other post list, `articles` input and previous title. -/
theorem componentDidMount_sets_title {γ : Type} (env : Env) (props props' : Props)
    (g : Global γ) (posts' : Option (List Post)) (title0 : String) :
    (componentDidMount env props g).document_title = env.title ∧
    (componentDidMount env props g).rest = g.rest ∧
    componentDidMount { env with Posts_list := posts' } props'
        { g with document_title := title0 } = componentDidMount env props g := by
  simp [componentDidMount, componentDidMount_body, Assignment.exec]

/-- C7: along the calls of one instance (render, mount, then `k` re-renders)
`document.title` is written exactly once, by the assignment of the mount:
after the first `j` calls the log of assignments to `document.title` is empty
for `j < 2` and holds the one assignment of `componentDidMount` from then on,
and the global state is the initial one before the mount and the mounted one
after; a `render` call assigns nothing; a `componentDidMount` call makes one
assignment, of the compiled title; mounting twice gives the same state as
mounting once. -/
theorem title_written_once_on_mount {γ : Type} (env : Env) (props : Props)
    (g : Global γ) (k j : Nat) (r : Run γ) :
    (run env props (lifecycle k) (Run.init g)).titleWrites = [env.title] ∧
    (run env props ((lifecycle k).take j) (Run.init g)).titleWrites =
      (if j < 2 then [] else [env.title]) ∧
    (run env props ((lifecycle k).take j) (Run.init g)).global =
      (if j < 2 then g else componentDidMount env props g) ∧
    ((step env props .render r).global = r.global ∧
      (step env props .render r).titleWrites = r.titleWrites) ∧
    ((step env props .componentDidMount r).global = componentDidMount env props r.global ∧
      (step env props .componentDidMount r).titleWrites = r.titleWrites ++ [env.title]) ∧
    render_body env props = [] ∧
    (componentDidMount_body env props).map Assignment.value = [env.title] ∧
    componentDidMount env props (componentDidMount env props g) =
      componentDidMount env props g := by
  have hrm := run_render_mount env props g
  refine ⟨?_, ?_, ?_, step_render env props r, step_componentDidMount env props r,
    rfl, rfl, rfl⟩
  · have h := run_replicate_render env props k
      (step env props .componentDidMount (step env props .render (Run.init g)))
    simp only [run, lifecycle, List.foldl_cons] at h ⊢
    rw [h.2, hrm.2]
  · match j with
    | 0 => simp [run, Run.init]
    | 1 =>
      have hr := step_render env props (Run.init g)
      simp only [run, lifecycle, List.take_succ_cons, List.take_zero, List.foldl_cons,
        List.foldl_nil]
      rw [hr.2]
      simp [Run.init]
    | j + 2 =>
      have h := run_replicate_render env props (min j k)
        (step env props .componentDidMount (step env props .render (Run.init g)))
      simp only [run, lifecycle, List.take_succ_cons, List.take_replicate,
        List.foldl_cons] at h ⊢
      rw [h.2, hrm.2]
      simp
  · match j with
    | 0 => simp [run, Run.init]
    | 1 =>
      have hr := step_render env props (Run.init g)
      simp only [run, lifecycle, List.take_succ_cons, List.take_zero, List.foldl_cons,
        List.foldl_nil]
      rw [hr.1]
      simp [Run.init]
    | j + 2 =>
      have h := run_replicate_render env props (min j k)
        (step env props .componentDidMount (step env props .render (Run.init g)))
      simp only [run, lifecycle, List.take_succ_cons, List.take_replicate,
        List.foldl_cons] at h ⊢
      rw [h.1, hrm.1]
      simp

/-- C8: the first child of the tree of `render` is the content region, a `div`
whose `dangerouslySetInnerHTML` is the object with the single field `__html`
equal to the compiled `html`, unchanged; it is the same for any other post
list and `articles` input. -/
theorem render_content_region (env : Env) (props props' : Props)
    (posts' : Option (List Post)) :
    (render env props).children[0]? =
      some (.el .div [("dangerouslySetInnerHTML", .obj [("__html", env.html)])] []) ∧
    (render { env with Posts_list := posts' } props').children[0]? =
      (render env props).children[0]? := by
  simp [render, Element.children]

/-- C9: the tree of `render` is a `Layout` element whose `header` attribute is
the object with exactly the two fields `background`, equal to
`"url(" ++ banner ++ ") center / cover"`, and `title`, equal to the compiled
title; it is the same for any other post list and `articles` input. -/
theorem render_header (env : Env) (props props' : Props) (posts' : Option (List Post)) :
    (∃ children, render env props =
      .el .Layout
        [("className", .str env.s_content),
         ("header", .obj [("background", "url(" ++ env.banner ++ ") center / cover"),
                          ("title", env.title)])]
        children) ∧
    (render env props).prop? "header" =
      some (.obj [("background", "url(" ++ env.banner ++ ") center / cover"),
                  ("title", env.title)]) ∧
    (render { env with Posts_list := posts' } props').prop? "header" =
      (render env props).prop? "header" := by
  refine ⟨⟨_, rfl⟩, ?_, ?_⟩ <;>
    simp [render, Element.prop?, Element.props, List.lookup]

/-- C10: for every list `S` of length `n` that `Posts.list()` gives, the third
child of the tree of `render` is the `Grid`, it has exactly `⌈n / 2⌉` children
(none for the empty list), and for every `i < ⌈n / 2⌉` its child `i` is a
`Cell` with `col` 6 whose children are one `Keynote` per post of chunk `i`,
each with that post as its only attribute: the post `S[2i]` followed, when
present, by `S[2i+1]`. The posts of all keynotes of the tree, in document
order, are exactly `S`. -/
theorem render_grid_cells (env : Env) (props : Props) (S : List Post) :
    (render { env with Posts_list := some S } props).children[2]? =
      some (.el .Grid [("className", .str "demo-grid-ruler")]
        (gridCells (render { env with Posts_list := some S } props))) ∧
    (gridCells (render { env with Posts_list := some S } props)).length =
      ⌈(S.length : ℚ) / 2⌉₊ ∧
    (∀ i, i < ⌈(S.length : ℚ) / 2⌉₊ →
      ∃ x, S[2 * i]? = some x ∧
        (chunk (some S) 2)[i]? = some (x :: (S[2 * i + 1]?).toList) ∧
        (gridCells (render { env with Posts_list := some S } props))[i]? =
          some (.el .Cell [("col", .num 6)]
            ((x :: (S[2 * i + 1]?).toList).map fun post =>
              .el .Keynote [("post", .post post)] []))) ∧
    (render { env with Posts_list := some S } props).keynotePosts = S := by
  rw [ceil_half_eq]
  refine ⟨?_, ?_, ?_, ?_⟩
  · rw [gridCells_render]
    simp [render, Element.children]
  · rw [gridCells_render, List.length_map, chunk_two_length]
  · intro i h
    have hck : (chunk (some S) 2)[i]? = some (S[2 * i] :: (S[2 * i + 1]?).toList) := by
      rw [chunk_two_getElem?, if_pos (by omega)]
      by_cases h1 : 2 * i + 1 < S.length
      · rw [take_two_drop_pair S (2 * i) h1, List.getElem?_eq_getElem h1]
        rfl
      · rw [take_two_drop_last S (2 * i) (by omega),
          List.getElem?_eq_none (by omega)]
        rfl
    refine ⟨S[2 * i], List.getElem?_eq_getElem _, hck, ?_⟩
    rw [gridCells_render, List.getElem?_map, hck]
    rfl
  · rw [keynotePosts_render]
    exact chunk_flatten S 2 (by decide)

/-- C10, at a list of three posts, where cell 1, the last, holds the keynote
of the third post alone, and at the empty list, where the grid has no cell. -/
theorem render_grid_cells_witness :
    (1 < ⌈(([⟨"/a", "A", "ann"⟩, ⟨"/b", "B", "bob"⟩, ⟨"/c", "C", "cy"⟩] :
        List Post).length : ℚ) / 2⌉₊ ∧
    (gridCells (render ⟨"Home", "banner.png", "<p>hi</p>", "content",
        some [⟨"/a", "A", "ann"⟩, ⟨"/b", "B", "bob"⟩, ⟨"/c", "C", "cy"⟩]⟩ ⟨[]⟩))[1]? =
      some (.el .Cell [("col", .num 6)]
        [.el .Keynote [("post", .post ⟨"/c", "C", "cy"⟩)] []])) ∧
    (gridCells (render ⟨"Home", "banner.png", "<p>hi</p>", "content", some []⟩
      ⟨[]⟩)).length = 0 := by
  have h1 : 1 < ⌈(([⟨"/a", "A", "ann"⟩, ⟨"/b", "B", "bob"⟩, ⟨"/c", "C", "cy"⟩] :
      List Post).length : ℚ) / 2⌉₊ := by
    rw [ceil_half_eq]; decide
  refine ⟨⟨h1, ?_⟩, ?_⟩
  · obtain ⟨x, hx, _, hcell⟩ := (render_grid_cells
      ⟨"Home", "banner.png", "<p>hi</p>", "content", none⟩ ⟨[]⟩
      [⟨"/a", "A", "ann"⟩, ⟨"/b", "B", "bob"⟩, ⟨"/c", "C", "cy"⟩]).2.2.1 1 h1
    simp at hx
    subst hx
    simpa using hcell
  · have h := (render_grid_cells
      ⟨"Home", "banner.png", "<p>hi</p>", "content", none⟩ ⟨[]⟩ []).2.1
    rw [ceil_half_eq] at h
    exact h

end HomePage
